import Mathlib

/-!
Shallow embedding of the session-scoped token aggregation engine in
`src/jppy/tokenizer.py` (repository patarapolw/jppy).

The Python module exposes four endpoint handlers over an in-memory session
backend: `create`, `tokenize` (the merge operation), `finalize` and `destroy`.
Pure helpers `morphome_to_pos`, `morpheme_to_token` and `token_to_id` normalize
one segmenter-produced morpheme into a `TokenResponse` and its identity key.

Modelling conventions:
- Python `dict` (insertion ordered, unique keys) is an association list; `dget`
  is `d.get(k)`, `dset` is `d[k] = v` (update keeps the original key position,
  a fresh key is appended), `ddel` is `del d[k]`.
- The morphological segmenter (sudachipy) is an external collaborator; a
  morpheme is a record of the four fields the code reads from it, and an
  operation on a text is modelled as an operation on the list of morphemes the
  segmenter yields for that text.
- Python `list.sort(key=f)` is a stable in-place sort by `f` ascending whose
  value as an expression is `None`; `List.mergeSort` (stable) models the list
  it produces, and `Option.none` models its value.
- Counts are Python ints (arbitrary precision, here only incremented), so `Nat`.
-/

/-- One morpheme as produced by the external segmenter: the four accessors the
code reads (`dictionary_form()`, `normalized_form()`, `reading_form()`,
`part_of_speech()`, the last a tuple of sub-tags). -/
structure Morpheme where
  dictionary_form : String
  normalized_form : String
  reading_form : String
  part_of_speech : List String
deriving DecidableEq, Repr

/-- The `TokenResponse` pydantic model: one accumulated token. -/
structure TokenResponse where
  dictionary : String
  normalized : String
  reading : List String
  part_of_speech : String
  count : Nat := 1
deriving DecidableEq, Repr

/-- The `SessionData` pydantic model: exclusion keys plus accumulated items. -/
abbrev Items := List (String × TokenResponse)

structure SessionData where
  exclude : List String
  items : Items := []
deriving DecidableEq, Repr

/-- Python dict read `d.get(k)`: the value at the entry with key `k`, if any. -/
def dget {κ α : Type} [DecidableEq κ] : List (κ × α) → κ → Option α
  | [], _ => none
  | (k0, v) :: rest, k => if k0 = k then some v else dget rest k

/-- Python dict write `d[k] = v`: an existing key keeps its position and gets
the new value; a fresh key is appended at the end. -/
def dset {κ α : Type} [DecidableEq κ] : List (κ × α) → κ → α → List (κ × α)
  | [], k, v => [(k, v)]
  | (k0, v0) :: rest, k, v =>
      if k0 = k then (k, v) :: rest else (k0, v0) :: dset rest k v

/-- Python dict delete `del d[k]`: since a dict holds each key at most once,
removing every entry with key `k` is removing the one entry with key `k`. -/
def ddel {κ α : Type} [DecidableEq κ] (d : List (κ × α)) (k : κ) : List (κ × α) :=
  d.filter (fun kv => kv.1 ≠ k)

/-- Source `morphome_to_pos`:
the join of the non-placeholder part-of-speech sub-tags, in order. -/
def morphome_to_pos (m : Morpheme) : String :=
  String.intercalate "・" (m.part_of_speech.filter (fun x => x ≠ "*"))

/-- Source `morpheme_to_token`: the freshly normalized token of one morpheme. -/
def morpheme_to_token (m : Morpheme) : TokenResponse :=
  { dictionary := m.dictionary_form
    normalized := m.normalized_form
    reading := [m.reading_form]
    part_of_speech := morphome_to_pos m
    count := 1 }

/-- Source `token_to_id`: the identity key of a token. -/
def token_to_id (t : TokenResponse) : String :=
  String.intercalate "\t" [t.normalized, t.part_of_speech]

/-- One iteration of the loop in the `tokenize` endpoint: skip the morpheme if
its key is excluded; if the key is live, append the new reading (the code runs
append of the single element of the fresh token reading list) and increment the
count, writing the token back under its key; otherwise insert the fresh token. -/
def tokenize_step (not_allowed : List String) (items : Items) (m : Morpheme) :
    Items :=
  let t := morpheme_to_token m
  let id := token_to_id t
  if id ∈ not_allowed then items
  else
    match dget items id with
    | some v =>
        dset items id { v with reading := v.reading ++ t.reading, count := v.count + 1 }
    | none => dset items id t

/-- The whole loop of the `tokenize` endpoint over the segmented morphemes. -/
def tokenize_list (not_allowed : List String) (items : Items)
    (ms : List Morpheme) : Items :=
  ms.foldl (tokenize_step not_allowed) items

/-- The `tokenize` endpoint body on one session: the exclusion set is read,
the items map is folded over the morphemes, and written back. -/
def mergeSession (s : SessionData) (ms : List Morpheme) : SessionData :=
  { s with items := tokenize_list s.exclude s.items ms }

/-- The side effect of the `sorter` key function in `finalize`:
`v.reading = list(set(v.reading))`. Python gives the materialized sequence no
specified order; the model keeps first occurrences (`List.dedup`), one
admissible order. -/
def dedupReading (v : TokenResponse) : TokenResponse :=
  { v with reading := v.reading.dedup }

/-- The value `sorter` returns for a token: the sort key `-v.count`. -/
def countKey (v : TokenResponse) : Int :=
  -(v.count : Int)

/-- The list built and sorted in place inside `finalize`:
the item values, each with readings deduplicated by the key call, stably
sorted by the key `-count` ascending. -/
def finalize_sorted (s : SessionData) : List TokenResponse :=
  ((s.items.map Prod.snd).map dedupReading).mergeSort
    (fun a b => decide (countKey a ≤ countKey b))

/-- The value `finalize` binds to `result`: Python `list.sort` sorts in place
and evaluates to `None`, so `result` is `None` whatever the session holds, and
the sorted list (`finalize_sorted`) is discarded. -/
def finalize_result (_ : SessionData) : Option (List TokenResponse) :=
  none

/-- Session ids are opaque unique identifiers (uuid4); modelled as `Nat`. -/
abbrev SessionId := Nat

/-- The in-memory backend: a dict from session id to session data. -/
abbrev Store := List (SessionId × SessionData)

/-- The one rejection kind of the store: the referenced session id has no live
entry. The code surfaces it as HTTP 403 via the session verifier on `tokenize`
and `finalize`, and as the key lookup failure of `del` on `destroy`. -/
inductive ApiError where
  | sessionNotFound
deriving DecidableEq, Repr

/-- The `create` endpoint: store a fresh session whose exclusion list is the
deduplicated identity keys of the supplied tokens (`list(set(map(...)))`
materializes the set in no specified order; `List.dedup` is one admissible
order) and whose items dict is empty. The id is a fresh uuid4. -/
def create_ep (st : Store) (id : SessionId) (exclude : List TokenResponse) :
    Store :=
  dset st id { exclude := (exclude.map token_to_id).dedup, items := [] }

/-- Modelled from the spec: the read side of the session backend. The backend
is the fastapi_sessions `InMemoryBackend`, an external collaborator whose code
is not under `src/`; per the spec, session existence is binary — an id is
either live, and the session verifier hands the endpoint its entry, or not,
and the operation is rejected. Reading yields the live entry, if any. -/
def backend_read (st : Store) (id : SessionId) : Option SessionData :=
  dget st id

/-- Modelled from the spec: the delete side of the session backend (code not
under `src/`). Referencing an id with no live entry fails — the spec error
taxonomy calls every such rejection session-not-found — and otherwise the one
entry with that id is removed, every other session untouched. -/
def backend_delete (st : Store) (id : SessionId) : Except ApiError Store :=
  match dget st id with
  | none => .error .sessionNotFound
  | some _ => .ok (ddel st id)

/-- The `tokenize` endpoint at store level: the cookie plus verifier reject an
id with no live entry; otherwise the session items are merged in place. -/
def merge_ep (st : Store) (id : SessionId) (ms : List Morpheme) :
    Except ApiError Store :=
  match backend_read st id with
  | none => .error .sessionNotFound
  | some s => .ok (dset st id (mergeSession s ms))

/-- The `finalize` endpoint at store level: the cookie plus verifier reject an
id with no live entry; otherwise bind `result` (which Python makes `None`),
run `backend.delete(session_id)` on the live id, and answer. -/
def finalize_ep (st : Store) (id : SessionId) :
    Except ApiError (Option (List TokenResponse) × Store) :=
  match backend_read st id with
  | none => .error .sessionNotFound
  | some s =>
      match backend_delete st id with
      | .error e => .error e
      | .ok st2 => .ok (finalize_result s, st2)

/-- The `destroy` endpoint at store level: the body is one
`backend.delete(session_id)` call on the session table (plus the stateless
cookie removal), so it fails on an id with no live entry and otherwise removes
the entry and nothing else. -/
def destroy_ep (st : Store) (id : SessionId) : Except ApiError Store :=
  backend_delete st id

/-! ### Association list lemmas (dict semantics) -/

theorem dget_dset_self {κ α : Type} [DecidableEq κ] (d : List (κ × α)) (k : κ)
    (v : α) : dget (dset d k v) k = some v := by
  induction d with
  | nil => simp [dget, dset]
  | cons kv rest ih =>
      obtain ⟨k0, v0⟩ := kv
      by_cases h : k0 = k
      · simp [dget, dset, h]
      · simp [dget, dset, h, ih]

theorem dget_dset_ne {κ α : Type} [DecidableEq κ] (d : List (κ × α))
    (k k' : κ) (v : α) (hne : k' ≠ k) : dget (dset d k v) k' = dget d k' := by
  induction d with
  | nil => simp [dget, dset, hne.symm]
  | cons kv rest ih =>
      obtain ⟨k0, v0⟩ := kv
      by_cases h : k0 = k
      · subst h
        simp [dget, dset, hne.symm]
      · by_cases h' : k0 = k'
        · subst h'
          simp [dget, dset, h]
        · simp [dget, dset, h, h', ih]

theorem dget_ddel_self {κ α : Type} [DecidableEq κ] (d : List (κ × α))
    (k : κ) : dget (ddel d k) k = none := by
  induction d with
  | nil => simp [dget, ddel]
  | cons kv rest ih =>
      obtain ⟨k0, v0⟩ := kv
      by_cases h : k0 = k
      · simpa [ddel, h] using ih
      · simpa [ddel, dget, h] using ih

theorem dget_ddel_ne {κ α : Type} [DecidableEq κ] (d : List (κ × α))
    (k k' : κ) (hne : k' ≠ k) : dget (ddel d k) k' = dget d k' := by
  induction d with
  | nil => simp [dget, ddel]
  | cons kv rest ih =>
      obtain ⟨k0, v0⟩ := kv
      by_cases h : k0 = k
      · subst h
        simpa [ddel, dget, List.filter_cons, hne.symm] using ih
      · by_cases h' : k0 = k'
        · subst h'
          simp [ddel, dget, List.filter_cons, h]
        · simpa [ddel, dget, List.filter_cons, h, h'] using ih

/-! ### Derived notions used by the statements -/

/-- The identity key of a morpheme: the key of its normalized token. -/
def morpheme_key (m : Morpheme) : String :=
  token_to_id (morpheme_to_token m)

/-- The reading list of a token viewed as a set (the data-model view of
readings as a set of strings). -/
def readingSet (v : TokenResponse) : Finset String :=
  v.reading.toFinset

/-- The fields of a token that merging never rewrites once the key is live. -/
def persistentFields (v : TokenResponse) : String × String × String :=
  (v.dictionary, v.normalized, v.part_of_speech)

/-- Every token in an items dict has as many recorded readings as its count. -/
def ReadCountInv (items : Items) : Prop :=
  ∀ kv ∈ items, (kv.2).reading.length = kv.2.count

/-- Modelled from the spec: the total order `(-count, normalizedForm,
partOfSpeech)` ascending that the spec requires of the finalized sequence. -/
def specTripleLE (a b : TokenResponse) : Prop :=
  countKey a < countKey b ∨
    (countKey a = countKey b ∧
      (a.normalized < b.normalized ∨
        (a.normalized = b.normalized ∧ a.part_of_speech ≤ b.part_of_speech)))

instance : DecidablePred (ReadCountInv) := fun items => by
  unfold ReadCountInv
  infer_instance

instance (a b : TokenResponse) : Decidable (specTripleLE a b) := by
  unfold specTripleLE
  infer_instance

/-! ### Concrete data for witnesses and counterexamples -/

/-- A morpheme whose part-of-speech sub-tags are all the placeholder. -/
def mStar : Morpheme :=
  { dictionary_form := "d", normalized_form := "n", reading_form := "r",
    part_of_speech := ["*", "*"] }

/-- A morpheme with normalized form `nn` and one reading. -/
def mRead1 : Morpheme :=
  { dictionary_form := "d", normalized_form := "nn", reading_form := "r1",
    part_of_speech := ["p", "q"] }

/-- Same normalized form and sub-tags as `mRead1`, different reading. -/
def mRead2 : Morpheme :=
  { dictionary_form := "d", normalized_form := "nn", reading_form := "r2",
    part_of_speech := ["p", "q"] }

/-- A morpheme with normalized form `a`. -/
def mA : Morpheme :=
  { dictionary_form := "a", normalized_form := "a", reading_form := "ra",
    part_of_speech := ["p"] }

/-- A morpheme with normalized form `b`. -/
def mB : Morpheme :=
  { dictionary_form := "b", normalized_form := "b", reading_form := "rb",
    part_of_speech := ["p"] }

/-- A fresh session with no exclusions. -/
def sEmpty : SessionData :=
  { exclude := [], items := [] }

/-! ### C8: part-of-speech joining and the identity key -/

/-- C8: for every morpheme, the part-of-speech is the non-placeholder sub-tags
joined with the fixed separator in their original order (dropping a placeholder
sub-tag anywhere changes nothing, and when every sub-tag is the placeholder the
result is the empty string), and the identity key of its token is exactly the
normalized form, then the key separator, then that part-of-speech; the reading
plays no part in the key. -/
theorem c8_pos_join_and_identity_key (m m' : Morpheme) (ps1 ps2 : List String) :
    (morphome_to_pos { m with part_of_speech := ps1 ++ ["*"] ++ ps2 }
       = morphome_to_pos { m with part_of_speech := ps1 ++ ps2 }) ∧
    ((∀ x ∈ m.part_of_speech, x = "*") → morphome_to_pos m = "") ∧
    (token_to_id (morpheme_to_token m)
       = m.normalized_form ++ "\t" ++ morphome_to_pos m) ∧
    (m'.normalized_form = m.normalized_form →
      m'.part_of_speech = m.part_of_speech →
      token_to_id (morpheme_to_token m') = token_to_id (morpheme_to_token m)) := by
  refine ⟨?_, ?_, ?_, ?_⟩
  · simp [morphome_to_pos, List.filter_append]
  · intro hall
    unfold morphome_to_pos
    have hnil : m.part_of_speech.filter (fun x => x ≠ "*") = [] := by
      rw [List.filter_eq_nil_iff]
      intro a ha
      simp [hall a ha]
    rw [hnil]
    rfl
  · rfl
  · intro h1 h2
    simp [token_to_id, morpheme_to_token, morphome_to_pos, h1, h2]

/-- Witness for C8 at concrete morphemes: the placeholder-only morpheme gets
the empty part-of-speech, the key of `mRead1` is its normalized form, the tab,
and its part-of-speech, and `mRead2` (same form, different reading) gets the
same key. -/
theorem c8_witness :
    morphome_to_pos mStar = "" ∧
    token_to_id (morpheme_to_token mRead1)
      = mRead1.normalized_form ++ "\t" ++ morphome_to_pos mRead1 ∧
    token_to_id (morpheme_to_token mRead2) = token_to_id (morpheme_to_token mRead1) := by
  have h1 := c8_pos_join_and_identity_key mStar mStar [] []
  have h2 := c8_pos_join_and_identity_key mRead1 mRead2 [] []
  exact ⟨h1.2.1 (by decide), h2.2.2.1, h2.2.2.2 (by decide) (by decide)⟩

/-! ### C5: split invariance of merging -/

/-- C5: if the segmentation of a text is the concatenation of the segmentations
of a front part and a back part, then merging the two parts in turn into a
fresh session with a given exclusion set yields exactly the same session as
merging the whole text at once. -/
theorem c5_split_invariance (excl : List String) (msT ms1 ms2 : List Morpheme)
    (hsplit : msT = ms1 ++ ms2) :
    mergeSession (mergeSession { exclude := excl, items := [] } ms1) ms2
      = mergeSession { exclude := excl, items := [] } msT := by
  subst hsplit
  simp [mergeSession, tokenize_list, List.foldl_append]

/-- Witness for C5 at a concrete split: merging `[mA]` then `[mB, mA]` equals
merging `[mA, mB, mA]` at once. -/
theorem c5_witness :
    mergeSession (mergeSession { exclude := [], items := [] } [mA]) [mB, mA]
      = mergeSession { exclude := [], items := [] } [mA, mB, mA] :=
  c5_split_invariance [] [mA, mB, mA] [mA] [mB, mA] (by decide)

/-! ### C2: merge semantics of one accepted morpheme -/

/-- C2: for a morpheme whose identity key is not excluded, one loop iteration
of the merge behaves as follows. If the key is live in the items dict holding
token `v`, the token now under the key has reading set `insert m.reading_form
(readingSet v)` — so a duplicate reading does not enlarge the set — and count
`v.count + 1`. If the key is absent, the freshly normalized token is inserted
under the key: count `1` and the singleton reading set of that one reading. -/
theorem c2_merge_step (excl : List String) (items : Items) (m : Morpheme)
    (hkey : morpheme_key m ∉ excl) :
    (∀ v, dget items (morpheme_key m) = some v →
      (dget (tokenize_step excl items m) (morpheme_key m)).map readingSet
          = some (insert m.reading_form (readingSet v)) ∧
      (m.reading_form ∈ v.reading →
        (dget (tokenize_step excl items m) (morpheme_key m)).map readingSet
          = some (readingSet v)) ∧
      (dget (tokenize_step excl items m) (morpheme_key m)).map TokenResponse.count
          = some (v.count + 1)) ∧
    (dget items (morpheme_key m) = none →
      dget (tokenize_step excl items m) (morpheme_key m)
          = some (morpheme_to_token m) ∧
      (morpheme_to_token m).count = 1 ∧
      readingSet (morpheme_to_token m) = {m.reading_form}) := by
  have hkey' : token_to_id (morpheme_to_token m) ∉ excl := hkey
  constructor
  · intro v hv
    have hv' : dget items (token_to_id (morpheme_to_token m)) = some v := hv
    have hstep : tokenize_step excl items m
        = dset items (token_to_id (morpheme_to_token m))
            { v with reading := v.reading ++ [m.reading_form],
                     count := v.count + 1 } := by
      simp only [tokenize_step]
      rw [if_neg hkey', hv']
      rfl
    have hset : (v.reading ++ [m.reading_form]).toFinset
        = insert m.reading_form v.reading.toFinset := by
      ext a
      simp [or_comm]
    refine ⟨?_, ?_, ?_⟩
    · show (dget (tokenize_step excl items m)
          (token_to_id (morpheme_to_token m))).map readingSet = _
      rw [hstep, dget_dset_self]
      simp [readingSet, hset]
    · intro hr
      show (dget (tokenize_step excl items m)
          (token_to_id (morpheme_to_token m))).map readingSet = _
      rw [hstep, dget_dset_self]
      simp [readingSet, hset, Finset.insert_eq_self.2 (List.mem_toFinset.2 hr)]
    · show (dget (tokenize_step excl items m)
          (token_to_id (morpheme_to_token m))).map TokenResponse.count = _
      rw [hstep, dget_dset_self]
      rfl
  · intro hnone
    have hnone' : dget items (token_to_id (morpheme_to_token m)) = none := hnone
    have hstep : tokenize_step excl items m
        = dset items (token_to_id (morpheme_to_token m)) (morpheme_to_token m) := by
      simp only [tokenize_step]
      rw [if_neg hkey', hnone']
    refine ⟨?_, rfl, ?_⟩
    · show dget (tokenize_step excl items m)
          (token_to_id (morpheme_to_token m)) = _
      rw [hstep, dget_dset_self]
    · simp [readingSet, morpheme_to_token]

/-- A one-entry items dict already holding the token of `mRead1`. -/
def itemsC2 : Items :=
  [(morpheme_key mRead1, morpheme_to_token mRead1)]

/-- Witness for C2: merging `mRead2` (same key as `mRead1`, new reading) into
`itemsC2` yields reading set `{r1, r2}` and count `2` under the key. -/
theorem c2_witness :
    (dget (tokenize_step [] itemsC2 mRead2) (morpheme_key mRead2)).map readingSet
      = some (insert mRead2.reading_form (readingSet (morpheme_to_token mRead1))) ∧
    (dget (tokenize_step [] itemsC2 mRead2) (morpheme_key mRead2)).map
        TokenResponse.count = some ((morpheme_to_token mRead1).count + 1) := by
  have h := (c2_merge_step [] itemsC2 mRead2 (by decide)).1
      (morpheme_to_token mRead1) (by decide)
  exact ⟨h.1, h.2.2⟩

/-! ### C4: exclusion correctness -/

theorem tokenize_step_excluded (excl : List String) (items : Items)
    (m : Morpheme) (h : morpheme_key m ∈ excl) :
    tokenize_step excl items m = items := by
  have h' : token_to_id (morpheme_to_token m) ∈ excl := h
  simp [tokenize_step, h']

theorem dget_tokenize_step_eq_none (excl : List String) (items : Items)
    (m : Morpheme) (key : String) (hkey : key ∈ excl)
    (hnone : dget items key = none) :
    dget (tokenize_step excl items m) key = none := by
  by_cases hm : token_to_id (morpheme_to_token m) ∈ excl
  · rw [tokenize_step_excluded excl items m hm]
    exact hnone
  · have hne : key ≠ token_to_id (morpheme_to_token m) := by
      intro he
      exact hm (he ▸ hkey)
    simp only [tokenize_step]
    rw [if_neg hm]
    cases hv : dget items (token_to_id (morpheme_to_token m)) with
    | some v => rw [dget_dset_ne _ _ _ _ hne]; exact hnone
    | none => rw [dget_dset_ne _ _ _ _ hne]; exact hnone

theorem dget_tokenize_list_eq_none (excl : List String) (items : Items)
    (ms : List Morpheme) (key : String) (hkey : key ∈ excl)
    (hnone : dget items key = none) :
    dget (tokenize_list excl items ms) key = none := by
  induction ms generalizing items with
  | nil => exact hnone
  | cons m ms ih =>
      exact ih (tokenize_step excl items m)
        (dget_tokenize_step_eq_none excl items m key hkey hnone)

theorem tokenize_list_filter_excluded (excl : List String) (ms : List Morpheme)
    (items : Items) :
    tokenize_list excl items ms
      = tokenize_list excl items (ms.filter (fun m => morpheme_key m ∉ excl)) := by
  induction ms generalizing items with
  | nil => rfl
  | cons m ms ih =>
      by_cases hm : morpheme_key m ∈ excl
      · rw [show (m :: ms).filter (fun m => morpheme_key m ∉ excl)
              = ms.filter (fun m => morpheme_key m ∉ excl) by simp [List.filter_cons, hm]]
        rw [show tokenize_list excl items (m :: ms)
              = tokenize_list excl (tokenize_step excl items m) ms from rfl]
        rw [tokenize_step_excluded excl items m hm]
        exact ih items
      · rw [show (m :: ms).filter (fun m => morpheme_key m ∉ excl)
              = m :: ms.filter (fun m => morpheme_key m ∉ excl) by simp [List.filter_cons, hm]]
        rw [show tokenize_list excl items (m :: ms)
              = tokenize_list excl (tokenize_step excl items m) ms from rfl]
        rw [show tokenize_list excl items (m :: ms.filter (fun m => morpheme_key m ∉ excl))
              = tokenize_list excl (tokenize_step excl items m)
                  (ms.filter (fun m => morpheme_key m ∉ excl)) from rfl]
        exact ih (tokenize_step excl items m)

/-- C4: an identity key held in the exclusion set never appears in the items
dict after any number of merged morphemes (it is absent before, it is absent
after), and excluded occurrences change nothing at all: merging a morpheme
list is merging the sublist of its non-excluded morphemes, so they never touch
the count or readings of any other token. -/
theorem c4_exclusion (excl : List String) (items : Items) (ms : List Morpheme)
    (key : String) (hkey : key ∈ excl) (hnone : dget items key = none) :
    dget (tokenize_list excl items ms) key = none ∧
    tokenize_list excl items ms
      = tokenize_list excl items (ms.filter (fun m => morpheme_key m ∉ excl)) :=
  ⟨dget_tokenize_list_eq_none excl items ms key hkey hnone,
   tokenize_list_filter_excluded excl ms items⟩

/-- Witness for C4: with the key of `mA` excluded, merging `[mA, mB, mA]` into
an empty dict leaves that key absent, and equals merging just `[mB]`. -/
theorem c4_witness :
    dget (tokenize_list [morpheme_key mA] [] [mA, mB, mA]) (morpheme_key mA)
        = none ∧
    tokenize_list [morpheme_key mA] [] [mA, mB, mA]
      = tokenize_list [morpheme_key mA] []
          ([mA, mB, mA].filter (fun m => morpheme_key m ∉ [morpheme_key mA])) := by
  have h := c4_exclusion [morpheme_key mA] [] [mA, mB, mA] (morpheme_key mA)
      (by decide) (by decide)
  exact h

/-! ### C9: merge mutates only the named session items -/

/-- C9: a successful merge call leaves every other session untouched, stores
under the named id exactly the merged session, and the merged session keeps
the exclusion set of the old one unchanged (only `items` moves). -/
theorem c9_merge_frame (st : Store) (id : SessionId) (ms : List Morpheme)
    (st' : Store) (hok : merge_ep st id ms = .ok st') :
    (∀ id', id' ≠ id → dget st' id' = dget st id') ∧
    (∀ s, dget st id = some s →
      dget st' id = some (mergeSession s ms) ∧
      (mergeSession s ms).exclude = s.exclude) := by
  cases hst : dget st id with
  | none =>
      rw [show merge_ep st id ms = .error .sessionNotFound by
        simp [merge_ep, backend_read, hst]] at hok
      cases hok
  | some s =>
      rw [show merge_ep st id ms = .ok (dset st id (mergeSession s ms)) by
        simp [merge_ep, backend_read, hst]] at hok
      rw [Except.ok.injEq] at hok
      subst hok
      constructor
      · intro id' hne
        exact dget_dset_ne st id id' (mergeSession s ms) hne
      · intro s' hs'
        injection hs' with hs2
        subst hs2
        exact ⟨dget_dset_self st id _, rfl⟩

/-- Witness for C9: in a two-session store, merging `[mA]` into session `0`
leaves session `1` unchanged, updates session `0` to the merged session, and
keeps its exclusion set. -/
theorem c9_witness :
    dget (dset [((0 : SessionId), sEmpty), (1, sEmpty)] 0 (mergeSession sEmpty [mA]))
        (1 : SessionId)
      = dget [((0 : SessionId), sEmpty), (1, sEmpty)] (1 : SessionId) ∧
    dget (dset [((0 : SessionId), sEmpty), (1, sEmpty)] 0 (mergeSession sEmpty [mA]))
        (0 : SessionId)
      = some (mergeSession sEmpty [mA]) ∧
    (mergeSession sEmpty [mA]).exclude = sEmpty.exclude := by
  have h := c9_merge_frame [((0 : SessionId), sEmpty), (1, sEmpty)] 0 [mA]
      (dset [((0 : SessionId), sEmpty), (1, sEmpty)] 0 (mergeSession sEmpty [mA]))
      (by rfl)
  exact ⟨h.1 1 (by decide), (h.2 sEmpty (by rfl)).1, (h.2 sEmpty (by rfl)).2⟩

/-! ### C10: reading-list length tracks the count; first fields persist -/

theorem mem_dset {κ α : Type} [DecidableEq κ] :
    ∀ (d : List (κ × α)) (k : κ) (v : α) (kv : κ × α),
      kv ∈ dset d k v → kv = (k, v) ∨ kv ∈ d
  | [], k, v, kv, h => by
      simp [dset] at h
      exact Or.inl h
  | (k0, v0) :: rest, k, v, kv, h => by
      by_cases hk : k0 = k
      · subst hk
        simp only [dset, if_pos rfl] at h
        rcases List.mem_cons.mp h with h1 | h1
        · exact Or.inl h1
        · exact Or.inr (List.mem_cons_of_mem _ h1)
      · simp only [dset, if_neg hk] at h
        rcases List.mem_cons.mp h with h1 | h1
        · exact Or.inr (List.mem_cons.mpr (Or.inl h1))
        · rcases mem_dset rest k v kv h1 with h2 | h2
          · exact Or.inl h2
          · exact Or.inr (List.mem_cons_of_mem _ h2)

theorem dget_mem {κ α : Type} [DecidableEq κ] (d : List (κ × α)) (k : κ)
    (v : α) (h : dget d k = some v) : (k, v) ∈ d := by
  induction d with
  | nil => simp [dget] at h
  | cons kv0 rest ih =>
      obtain ⟨k0, v0⟩ := kv0
      by_cases hk : k0 = k
      · subst hk
        rw [dget, if_pos rfl, Option.some.injEq] at h
        subst h
        exact List.mem_cons_self _ _
      · rw [dget, if_neg hk] at h
        exact List.mem_cons_of_mem _ (ih h)

theorem readCountInv_step (excl : List String) (items : Items) (m : Morpheme)
    (h : ReadCountInv items) : ReadCountInv (tokenize_step excl items m) := by
  by_cases hm : token_to_id (morpheme_to_token m) ∈ excl
  · rw [tokenize_step_excluded excl items m hm]
    exact h
  · simp only [tokenize_step]
    rw [if_neg hm]
    cases hv : dget items (token_to_id (morpheme_to_token m)) with
    | some v =>
        intro kv hkv
        rcases mem_dset _ _ _ _ hkv with rfl | hmem
        · have hv' := h _ (dget_mem _ _ _ hv)
          simp only at hv'
          simp [morpheme_to_token, hv']
        · exact h _ hmem
    | none =>
        intro kv hkv
        rcases mem_dset _ _ _ _ hkv with rfl | hmem
        · simp [morpheme_to_token]
        · exact h _ hmem

theorem readCountInv_list (excl : List String) (items : Items)
    (ms : List Morpheme) (h : ReadCountInv items) :
    ReadCountInv (tokenize_list excl items ms) := by
  induction ms generalizing items with
  | nil => exact h
  | cons m ms ih => exact ih _ (readCountInv_step excl items m h)

theorem persistentFields_step (excl : List String) (items : Items)
    (m : Morpheme) (k : String) (fv : String × String × String)
    (h : (dget items k).map persistentFields = some fv) :
    (dget (tokenize_step excl items m) k).map persistentFields = some fv := by
  by_cases hm : token_to_id (morpheme_to_token m) ∈ excl
  · rw [tokenize_step_excluded excl items m hm]
    exact h
  · simp only [tokenize_step]
    rw [if_neg hm]
    cases hv : dget items (token_to_id (morpheme_to_token m)) with
    | some v =>
        by_cases hk : k = token_to_id (morpheme_to_token m)
        · subst hk
          rw [hv] at h
          rw [dget_dset_self]
          simpa [persistentFields] using h
        · rw [dget_dset_ne _ _ _ _ hk]
          exact h
    | none =>
        by_cases hk : k = token_to_id (morpheme_to_token m)
        · subst hk
          rw [hv] at h
          simp at h
        · rw [dget_dset_ne _ _ _ _ hk]
          exact h

theorem persistentFields_list (excl : List String) (items : Items)
    (ms : List Morpheme) (k : String) (fv : String × String × String)
    (h : (dget items k).map persistentFields = some fv) :
    (dget (tokenize_list excl items ms) k).map persistentFields = some fv := by
  induction ms generalizing items with
  | nil => exact h
  | cons m ms ih => exact ih _ (persistentFields_step excl items m k fv h)

/-- C10: if every token of an items dict has as many recorded readings as its
count (true of the empty dict a session starts from), this stays true after
merging any morpheme list — each accepted occurrence appends exactly one
reading and adds exactly one to the count. Moreover the dictionary form,
normalized form and part-of-speech of a live token persist across any merge
(later occurrences never overwrite them), and the first accepted occurrence of
an absent key inserts exactly its own freshly normalized token. -/
theorem c10_reading_count_and_first_fields (excl : List String) (items : Items)
    (ms : List Morpheme) (hinv : ReadCountInv items) :
    ReadCountInv (tokenize_list excl items ms) ∧
    (∀ k fv, (dget items k).map persistentFields = some fv →
      (dget (tokenize_list excl items ms) k).map persistentFields = some fv) ∧
    (∀ m, morpheme_key m ∉ excl → dget items (morpheme_key m) = none →
      dget (tokenize_step excl items m) (morpheme_key m)
        = some (morpheme_to_token m)) := by
  refine ⟨readCountInv_list excl items ms hinv,
    fun k fv h => persistentFields_list excl items ms k fv h,
    fun m hm hn => ?_⟩
  have hm' : token_to_id (morpheme_to_token m) ∉ excl := hm
  have hn' : dget items (token_to_id (morpheme_to_token m)) = none := hn
  show dget (tokenize_step excl items m) (token_to_id (morpheme_to_token m)) = _
  simp only [tokenize_step]
  rw [if_neg hm', hn']
  exact dget_dset_self items _ _

/-- Witness for C10: merging `[mRead1, mRead2, mA]` into the empty dict keeps
the reading-per-count invariant, the fields stored for the key of `mRead1`
persist, and inserting `mRead1` first records its own token. -/
theorem c10_witness :
    ReadCountInv (tokenize_list [] [] [mRead1, mRead2, mA]) ∧
    (dget (tokenize_list [] itemsC2 [mRead2, mA]) (morpheme_key mRead1)).map
        persistentFields = some (persistentFields (morpheme_to_token mRead1)) ∧
    dget (tokenize_step [] [] mRead1) (morpheme_key mRead1)
      = some (morpheme_to_token mRead1) := by
  have h1 := c10_reading_count_and_first_fields [] [] [mRead1, mRead2, mA]
      (by intro kv hkv; simp at hkv)
  have h2 := c10_reading_count_and_first_fields [] itemsC2 [mRead2, mA]
      (by decide)
  exact ⟨h1.1,
    h2.2.1 (morpheme_key mRead1) (persistentFields (morpheme_to_token mRead1))
      (by decide),
    h1.2.2 mRead1 (by decide) (by decide)⟩

/-! ### C6: finalize consumes the session -/

/-- C6: a finalize call that returns removed the session from the store: the
id has no live entry afterwards, and every subsequent merge, finalize or
destroy on that id is rejected with the session-not-found error. -/
theorem c6_finalize_consumes (st : Store) (id : SessionId)
    (out : Option (List TokenResponse)) (st' : Store) (ms : List Morpheme)
    (hok : finalize_ep st id = .ok (out, st')) :
    dget st' id = none ∧
    merge_ep st' id ms = .error .sessionNotFound ∧
    finalize_ep st' id = .error .sessionNotFound ∧
    destroy_ep st' id = .error .sessionNotFound := by
  cases hst : dget st id with
  | none =>
      rw [show finalize_ep st id = .error .sessionNotFound by
        simp [finalize_ep, backend_read, hst]] at hok
      cases hok
  | some s =>
      rw [show finalize_ep st id = .ok (finalize_result s, ddel st id) by
        simp [finalize_ep, backend_read, backend_delete, hst]] at hok
      rw [Except.ok.injEq, Prod.mk.injEq] at hok
      obtain ⟨h1, h2⟩ := hok
      subst h2
      have hnone : dget (ddel st id) id = none := dget_ddel_self st id
      exact ⟨hnone, by simp [merge_ep, backend_read, hnone],
        by simp [finalize_ep, backend_read, hnone],
        by simp [destroy_ep, backend_delete, hnone]⟩

/-- Witness for C6: finalizing the one-session store at id 5 returns, and
afterwards the id is gone and each operation on it is rejected. -/
theorem c6_witness :
    dget ([] : Store) (5 : SessionId) = none ∧
    merge_ep ([] : Store) 5 [mA] = .error .sessionNotFound ∧
    finalize_ep ([] : Store) 5 = .error .sessionNotFound ∧
    destroy_ep ([] : Store) 5 = .error .sessionNotFound :=
  c6_finalize_consumes [(5, sEmpty)] 5 none [] [mA] (by rfl)

/-! ### C7: destroy semantics -/

/-- C7: destroy on a live id succeeds and removes exactly that session — its
entry is gone, every other session is untouched — while destroy on an id with
no live entry, in particular a second destroy of the same id, is rejected with
the session-not-found error and produces no store (state is not corrupted or
recreated). -/
theorem c7_destroy_semantics (st : Store) (id : SessionId) :
    (∀ s, dget st id = some s →
      destroy_ep st id = .ok (ddel st id) ∧
      dget (ddel st id) id = none ∧
      (∀ id', id' ≠ id → dget (ddel st id) id' = dget st id') ∧
      destroy_ep (ddel st id) id = .error .sessionNotFound) ∧
    (dget st id = none → destroy_ep st id = .error .sessionNotFound) := by
  constructor
  · intro s hs
    have hnone := dget_ddel_self st id
    exact ⟨by simp [destroy_ep, backend_delete, hs], hnone,
      fun id' hne => dget_ddel_ne st id id' hne,
      by simp [destroy_ep, backend_delete, hnone]⟩
  · intro h
    simp [destroy_ep, backend_delete, h]

/-- Witness for C7: destroying the one live session at id 3 succeeds and
empties the store; destroying id 3 again is rejected. -/
theorem c7_witness :
    destroy_ep [((3 : SessionId), sEmpty)] 3
      = .ok (ddel [((3 : SessionId), sEmpty)] 3) ∧
    dget (ddel [((3 : SessionId), sEmpty)] 3) (3 : SessionId) = none ∧
    destroy_ep (ddel [((3 : SessionId), sEmpty)] 3) 3
      = .error .sessionNotFound := by
  have h := (c7_destroy_semantics [((3 : SessionId), sEmpty)] 3).1 sEmpty (by rfl)
  exact ⟨h.1, h.2.1, h.2.2.2⟩

/-! ### C1: finalize fails to return the sorted sequence -/

/-- A morpheme standing for the noun of the concrete spec scenario. -/
def mNeko : Morpheme :=
  { dictionary_form := "neko", normalized_form := "neko", reading_form := "NEKO",
    part_of_speech := ["noun"] }

/-- C1 (evaluation at the failing input): on a session holding one accepted
token, the value `finalize` binds to `result` is `none` — Python `list.sort`
sorts in place and evaluates to `None` — while the sequence the claim requires
is nonempty: it is computed in place (`finalize_sorted`, here the one token)
and then discarded, and the store-level call returns `none` as its payload
even though it still deletes the session. -/
theorem c1_finalize_returns_no_sequence :
    finalize_result (mergeSession sEmpty [mNeko]) = none ∧
    finalize_sorted (mergeSession sEmpty [mNeko]) = [morpheme_to_token mNeko] ∧
    finalize_ep [(0, mergeSession sEmpty [mNeko])] 0 = .ok (none, []) := by
  refine ⟨rfl, ?_, by rfl⟩
  have hl : ((mergeSession sEmpty [mNeko]).items.map Prod.snd).map dedupReading
      = [morpheme_to_token mNeko] := by decide
  show (((mergeSession sEmpty [mNeko]).items.map Prod.snd).map dedupReading).mergeSort
      (fun a b => decide (countKey a ≤ countKey b)) = [morpheme_to_token mNeko]
  rw [hl]
  simp

/-! ### C3: the sort key is count alone, with no tie-break -/

theorem pairwise_count_mergeSort (l : List TokenResponse) :
    (l.mergeSort (fun a b => decide (countKey a ≤ countKey b))).Pairwise
      (fun a b => b.count ≤ a.count) := by
  have h := @List.sorted_mergeSort TokenResponse
      (fun a b => decide (countKey a ≤ countKey b))
      (fun a b c hab hbc => by
        simp only [decide_eq_true_eq] at hab hbc ⊢
        exact le_trans hab hbc)
      (fun a b => by
        simp only [Bool.or_eq_true, decide_eq_true_eq]
        exact le_total _ _)
      l
  refine h.imp ?_
  intro a b hab
  have h2 := of_decide_eq_true hab
  simp only [countKey, neg_le_neg_iff, Nat.cast_le] at h2
  exact h2

/-- C3 counterexample: submitting the tied-count morphemes in the order
`[mB, mA]` leaves the internally sorted sequence in items insertion order
`[b-token, a-token]`, which is not ascending in the required
`(-count, normalizedForm, partOfSpeech)` order, and differs from the sequence
of the permuted submission `[mA, mB]`. -/
theorem c3_counterexample :
    ¬ List.Pairwise specTripleLE (finalize_sorted (mergeSession sEmpty [mB, mA])) ∧
    finalize_sorted (mergeSession sEmpty [mB, mA])
      ≠ finalize_sorted (mergeSession sEmpty [mA, mB]) := by
  have hBA : finalize_sorted (mergeSession sEmpty [mB, mA])
      = [morpheme_to_token mB, morpheme_to_token mA] := by
    have hl : ((mergeSession sEmpty [mB, mA]).items.map Prod.snd).map dedupReading
        = [morpheme_to_token mB, morpheme_to_token mA] := by decide
    show (((mergeSession sEmpty [mB, mA]).items.map Prod.snd).map dedupReading).mergeSort
        (fun a b => decide (countKey a ≤ countKey b))
        = [morpheme_to_token mB, morpheme_to_token mA]
    rw [hl]
    exact List.mergeSort_of_sorted (by decide)
  have hAB : finalize_sorted (mergeSession sEmpty [mA, mB])
      = [morpheme_to_token mA, morpheme_to_token mB] := by
    have hl : ((mergeSession sEmpty [mA, mB]).items.map Prod.snd).map dedupReading
        = [morpheme_to_token mA, morpheme_to_token mB] := by decide
    show (((mergeSession sEmpty [mA, mB]).items.map Prod.snd).map dedupReading).mergeSort
        (fun a b => decide (countKey a ≤ countKey b))
        = [morpheme_to_token mA, morpheme_to_token mB]
    rw [hl]
    exact List.mergeSort_of_sorted (by decide)
  constructor
  · rw [hBA]
    intro hp
    have hrel : specTripleLE (morpheme_to_token mB) (morpheme_to_token mA) :=
      List.rel_of_pairwise_cons hp (List.mem_cons_self _ _)
    rcases hrel with h1 | ⟨h2, h3 | ⟨h4, h5⟩⟩
    · exact absurd h1 (by decide)
    · have h3' : ("b" : String) < "a" := h3
      rw [String.lt_iff_toList_lt] at h3'
      exact absurd h3' (by decide)
    · have h4' : ("b" : String) = "a" := h4
      exact absurd h4' (by decide)
  · rw [hBA, hAB]
    decide

/-- C3 (amended): the sequence finalize computes in place is sorted by count
descending — count is the only sort key the code uses — and is a permutation
of the deduplicated item values; tied counts keep the items insertion order
rather than the normalized-form order, so permuted-order submission can
reorder tied tokens (and the function then discards the sequence, see C1). -/
theorem c3_count_descending_only (s : SessionData) :
    (finalize_sorted s).Pairwise (fun a b => b.count ≤ a.count) ∧
    (finalize_sorted s).Perm ((s.items.map Prod.snd).map dedupReading) :=
  ⟨pairwise_count_mergeSort _, List.mergeSort_perm _ _⟩
